import Mathlib

/-!
Verification of the streaming-chat ingestion pipeline and notification
delivery of the Wonders frontend.

JS strings are embedded as `List Char` (`Str`); JS numbers used as message
ids are embedded as `Int`.  Optional JS fields are `Option`; JS truthiness
tests on them (`if (x)`) are embedded by `strT` / `numT`, under which the
empty string, `0`, `null` and `undefined` are all falsy, exactly as in the
source.  `JSON.parse` is a host builtin, not code of this repository: it is
abstracted as a parameter `J : Str → Option StreamChunk` (`none` models a
parse that throws); `Jdemo` below is a concrete instance used to evaluate
the model on the spec's concrete examples.
-/

namespace Wonders

/-- Embedding of JS strings. -/
abbrev Str := List Char

/-- Convenience: a Lean string literal as a `Str`. -/
def str (s : String) : Str := s.data

/-- JS truthiness of an optional string: `undefined`/`null` and `""` are falsy. -/
def strT : Option Str → Bool
  | none => false
  | some s => !s.isEmpty

/-- JS truthiness of an optional number: `undefined`/`null` and `0` are falsy. -/
def numT : Option Int → Bool
  | none => false
  | some n => n != 0

/-- The line-buffered chunk decoder step of `ApiService.sendStreamMessage`
(api.ts lines 155-157): `buffer += chunk; const lines = buffer.split('\n');
buffer = lines.pop() || ''`.  Returns the complete lines and the new
carry-over buffer. -/
def feed (buffer chunk : Str) : List Str × Str :=
  let lines := (buffer ++ chunk).splitOn '\n'
  (lines.dropLast, lines.getLastD [])

/-- Iterated decoder: runs `feed` over a sequence of incoming text chunks,
threading the carry-over buffer; collects all emitted lines in order. -/
def feedMany (buffer : Str) : List Str → List Str × Str
  | [] => ([], buffer)
  | c :: cs =>
    let f := feed buffer c
    let r := feedMany f.2 cs
    (f.1 ++ r.1, r.2)

/-- A parsed stream chunk (types.ts `StreamChunk`); `full_content` and
`error` are never read by the pipeline and are omitted. -/
structure StreamChunk where
  content : Option Str := none
  finished : Bool := false
  conversation_id : Option Str := none
  user_message_id : Option Int := none
  assistant_message_id : Option Int := none
deriving DecidableEq

/-- The literal frame marker `"data: "`. -/
def dataMark : Str := str "data: "

/-- The event-frame parser of api.ts lines 160-162: a line yields a payload
exactly when it starts with `"data: "` and `JSON.parse` of the remainder
(modelled by `J`) succeeds. -/
def parseFrame (J : Str → Option StreamChunk) (line : Str) : Option StreamChunk :=
  if line.take 6 = dataMark then J (line.drop 6) else none

/-- Callbacks observable from one streaming call. -/
inductive CB
  | chunk (c : StreamChunk)
  | complete
  | error
deriving DecidableEq

/-- The per-line loop of api.ts lines 159-173: each `data: ` line whose JSON
parses fires `onChunk`; a chunk with `finished` additionally fires
`onComplete` and stops (the boolean result); parse failures are swallowed
and processing continues. -/
def processLines (J : Str → Option StreamChunk) : List Str → List CB × Bool
  | [] => ([], false)
  | l :: ls =>
    match parseFrame J l with
    | some c =>
      if c.finished then ([CB.chunk c, CB.complete], true)
      else
        let r := processLines J ls
        (CB.chunk c :: r.1, r.2)
    | none => processLines J ls

/-- One transport read: either a decoded text chunk or a read failure. -/
inductive ReadEv
  | chunk (s : Str)
  | fail
deriving DecidableEq

/-- The read loop of api.ts lines 148-174: reads until end-of-stream
(`done`, which discards the carry-over buffer and stops silently), a read
failure (caught by the outer `catch`, firing `onError`), or a finished
chunk (which stops the loop after `onComplete`). -/
def readLoop (J : Str → Option StreamChunk) (buffer : Str) : List ReadEv → List CB
  | [] => []
  | ReadEv.fail :: _ => [CB.error]
  | ReadEv.chunk s :: rest =>
    let f := feed buffer s
    let p := processLines J f.1
    if p.2 then p.1 else p.1 ++ readLoop J f.2 rest

/-- `ApiService.sendStreamMessage` (api.ts lines 119-178) as a trace of
callbacks: a non-OK HTTP status or a missing readable body throws into the
outer `catch`, firing `onError`; otherwise the read loop runs. -/
def sendStreamApi (J : Str → Option StreamChunk) (ok hasBody : Bool)
    (reads : List ReadEv) : List CB :=
  if ok then
    if hasBody then readLoop J [] reads else [CB.error]
  else [CB.error]

/-- Message roles (types.ts `MessageRole`). -/
inductive MessageRole
  | user
  | assistant
  | system
deriving DecidableEq

/-- A chat message (types.ts `ChatMessage`); `created_at`, an ISO timestamp
string, is embedded as the millisecond clock reading that produced it. -/
structure ChatMessage where
  id : Int
  role : MessageRole
  content : Str
  conversation_id : Option Str
  created_at : Int
deriving DecidableEq

/-- Whitespace for the embedding of JS `String.prototype.trim`. -/
def isWs (c : Char) : Bool := c = ' ' || c = '\n' || c = '\t' || c = '\r'

/-- Embedding of JS `message.trim()`. -/
def trimStr (s : Str) : Str :=
  ((s.dropWhile isWs).reverse.dropWhile isWs).reverse

/-- The local accumulator of `useChat.sendStreamMessage` (part_001 lines
648-651): `fullContent`, `finalConversationId` (initialised to the current
conversation), `finalUserMessageId`, `finalAssistantMessageId`. -/
structure StreamAcc where
  fullContent : Str
  finalConversationId : Option Str
  finalUserMessageId : Option Int
  finalAssistantMessageId : Option Int
deriving DecidableEq

/-- The accumulator update of the `onChunk` callback (part_001 lines
660-685): content is appended when truthy; each metadata field is
overwritten by a truthy incoming value and otherwise left untouched. -/
def accStep (a : StreamAcc) (c : StreamChunk) : StreamAcc :=
  { fullContent :=
      if strT c.content then a.fullContent ++ c.content.getD [] else a.fullContent
    finalConversationId :=
      if strT c.conversation_id then c.conversation_id else a.finalConversationId
    finalUserMessageId :=
      if numT c.user_message_id then c.user_message_id else a.finalUserMessageId
    finalAssistantMessageId :=
      if numT c.assistant_message_id then c.assistant_message_id
      else a.finalAssistantMessageId }

/-- The message-list update of `onChunk` (part_001 lines 661-672): when the
chunk's content is truthy, the assistant placeholder — matched by its exact
temporary id — gets the accumulated content; otherwise the list is
untouched. -/
def chunkMsgs (tempAid : Int) (full : Str) (c : StreamChunk)
    (msgs : List ChatMessage) : List ChatMessage :=
  if strT c.content then
    msgs.map fun m => if m.id = tempAid then { m with content := full } else m
  else msgs

/-- The rollback of the `onError` callback (part_001 lines 692-694):
messages whose id is either placeholder id are filtered out. -/
def rollback (userPid tempAid : Int) (msgs : List ChatMessage) : List ChatMessage :=
  msgs.filter fun m => m.id != tempAid && m.id != userPid

/-- The per-message reconciliation of the `onComplete` callback (part_001
lines 699-717): a message matching the user placeholder id gets the
server-issued user id and the final conversation id, provided that server
id is truthy; likewise for the assistant placeholder; all other messages
(and placeholders whose server id is absent) are returned unchanged. -/
def reconOne (userPid tempAid : Int) (a : StreamAcc) (m : ChatMessage) : ChatMessage :=
  if m.id = userPid ∧ numT a.finalUserMessageId then
    { m with id := a.finalUserMessageId.getD 0,
             conversation_id := a.finalConversationId }
  else if m.id = tempAid ∧ numT a.finalAssistantMessageId then
    { m with id := a.finalAssistantMessageId.getD 0,
             conversation_id := a.finalConversationId }
  else m

/-- The `onComplete` message-list update (part_001 lines 699-717). -/
def reconcile (userPid tempAid : Int) (a : StreamAcc)
    (msgs : List ChatMessage) : List ChatMessage :=
  msgs.map (reconOne userPid tempAid a)

/-- Observable state of the chat store (`useChat`), restricted to what the
claims mention: the message list, the current conversation id,
whether `loadConversations()` was triggered, and whether an error was
surfaced to the caller (`toast.error`). -/
structure ChatState where
  messages : List ChatMessage
  currentConversation : Option Str
  refreshTriggered : Bool := false
  errorSurfaced : Bool := false
deriving DecidableEq

/-- One callback applied to the store.  `origConv` is the
`currentConversation` value captured by the `useCallback` closure at send
time, used by `onComplete` for the adoption test `!currentConversation &&
finalConversationId` (part_001 lines 720-724). -/
def applyCB (userPid tempAid : Int) (origConv : Option Str)
    (st : StreamAcc × ChatState) (cb : CB) : StreamAcc × ChatState :=
  match cb with
  | CB.chunk c =>
    let a := accStep st.1 c
    (a, { st.2 with messages := chunkMsgs tempAid a.fullContent c st.2.messages })
  | CB.error =>
    (st.1, { st.2 with messages := rollback userPid tempAid st.2.messages,
                       errorSurfaced := true })
  | CB.complete =>
    let adopted := !strT origConv && strT st.1.finalConversationId
    (st.1, { st.2 with
               messages := reconcile userPid tempAid st.1 st.2.messages,
               currentConversation :=
                 if adopted then st.1.finalConversationId
                 else st.2.currentConversation,
               refreshTriggered := st.2.refreshTriggered || adopted })

/-- Folding a whole callback trace into the store. -/
def applyCBs (userPid tempAid : Int) (origConv : Option Str)
    (st : StreamAcc × ChatState) (cbs : List CB) : StreamAcc × ChatState :=
  cbs.foldl (applyCB userPid tempAid origConv) st

/-- The optimistic user message of a send (part_001 lines 625-631): the
placeholder id is the clock reading, the conversation id the current one
when truthy (`currentConversation || undefined`). -/
def optimisticUser (now : Int) (text : Str) (s0 : ChatState) : ChatMessage :=
  { id := now, role := MessageRole.user, content := trimStr text,
    conversation_id :=
      if strT s0.currentConversation then s0.currentConversation else none,
    created_at := now }

/-- The optimistic assistant placeholder (part_001 lines 636-643): empty
content, placeholder id `now + 1`. -/
def optimisticAsst (now : Int) (s0 : ChatState) : ChatMessage :=
  { id := now + 1, role := MessageRole.assistant, content := [],
    conversation_id :=
      if strT s0.currentConversation then s0.currentConversation else none,
    created_at := now }

/-- The initial stream accumulator (part_001 lines 648-651):
`finalConversationId` starts as the raw current conversation. -/
def initAcc (s0 : ChatState) : StreamAcc :=
  { fullContent := [], finalConversationId := s0.currentConversation,
    finalUserMessageId := none, finalAssistantMessageId := none }

/-- `useChat.sendStreamMessage` (part_001 lines 618-739) driven by the
callback trace `cbs` produced by the API layer.  `now` is the `Date.now()`
reading of the send: the user placeholder id is `now`, the assistant
placeholder id `now + 1`.  A message that is empty after trimming is a
no-op.  The optimistic user and assistant messages are appended, then the
trace is folded in. -/
def sendStream (now : Int) (text : Str) (s0 : ChatState) (cbs : List CB) : ChatState :=
  if (trimStr text).isEmpty then s0
  else
    let userMsg : ChatMessage := optimisticUser now text s0
    let asstMsg : ChatMessage := optimisticAsst now s0
    let acc0 : StreamAcc := initAcc s0
    let st1 : ChatState := { s0 with messages := s0.messages ++ [userMsg, asstMsg] }
    (applyCBs now (now + 1) s0.currentConversation (acc0, st1) cbs).2

/-- A notification event (notificationService `NotificationEvent`); the
fields other than `event_id` are irrelevant to the claims and summarised by
an opaque payload. -/
structure NotificationEvent where
  event_id : Str
  payload : Nat := 0
deriving DecidableEq

/-- Embedding of the JS string comparison `a < b` (lexicographic by code
unit), as used by `event.event_id > this.lastEventId`. -/
def strLt : Str → Str → Bool
  | [], [] => false
  | [], _ :: _ => true
  | _ :: _, [] => false
  | a :: as, b :: bs =>
    if a < b then true else if b < a then false else strLt as bs

/-- One polling iteration of `NotificationService.startPolling` (part_001
lines 121-140): every fetched event whose id is greater than the truthy
watermark (or every event, when the watermark is unset) is dispatched, and
a non-empty batch sets the watermark to the id of its **last** element. -/
def pollStep (lastEventId : Option Str) (events : List NotificationEvent) :
    List NotificationEvent × Option Str :=
  ( events.filter fun e =>
      if strT lastEventId then strLt (lastEventId.getD []) e.event_id else true
  , match events.getLast? with
    | none => lastEventId
    | some e => some e.event_id )

/-- The maximum event id of a batch under JS string comparison (what the
spec says the watermark becomes). -/
def maxEventId (events : List NotificationEvent) : Str :=
  events.foldl (fun m e => if strLt m e.event_id then e.event_id else m) []

/-- `handleNotificationEvent` of useNotifications.ts lines 60-75: an event
whose id already occurs in the buffer is dropped; otherwise it is appended
and the buffer is truncated to its most recent 100 entries
(`[...prev, event].slice(-100)`). -/
def handleEvent (prev : List NotificationEvent) (e : NotificationEvent) :
    List NotificationEvent :=
  if prev.any fun n => n.event_id = e.event_id then prev
  else
    let updated := prev ++ [e]
    updated.drop (updated.length - 100)

/-- Dispatching a whole sequence of events into the consumer buffer. -/
def handleEvents (prev : List NotificationEvent) (es : List NotificationEvent) :
    List NotificationEvent :=
  es.foldl handleEvent prev

/-- A concrete instance of the abstract `JSON.parse` model, mapping the
payload strings of the spec's concrete examples to their parsed chunks and
everything else (including malformed JSON such as `\x7bbad json`) to
`none`. -/
def Jdemo (s : Str) : Option StreamChunk :=
  if s = str "\x7b\"content\":\"hi\"\x7d" then
    some { content := some (str "hi") }
  else if s = str "\x7b\"content\":\"A\"\x7d" then
    some { content := some (str "A") }
  else if s = str "\x7b\"content\":\"B\",\"conversation_id\":\"c1\"\x7d" then
    some { content := some (str "B"), conversation_id := some (str "c1") }
  else if s = str "\x7b\"finished\":true,\"user_message_id\":1,\"assistant_message_id\":2\x7d" then
    some { finished := true, user_message_id := some 1, assistant_message_id := some 2 }
  else none

/-! ### Decoder lemmas -/

lemma splitOnP_ne_nil' (p : Char → Bool) (xs : Str) : xs.splitOnP p ≠ [] :=
  List.splitOnP_ne_nil p xs

/-- Every segment produced by `splitOnP` is free of separator characters. -/
lemma splitOnP_all_not (p : Char → Bool) :
    ∀ xs : Str, ∀ l ∈ xs.splitOnP p, ∀ a ∈ l, p a = false := by
  intro xs
  induction xs with
  | nil =>
    intro l hl a ha
    simp only [List.splitOnP_nil, List.mem_singleton] at hl
    subst hl
    exact absurd ha (List.not_mem_nil a)
  | cons x xs ih =>
    intro l hl a ha
    rw [List.splitOnP_cons] at hl
    by_cases hx : p x
    · rw [if_pos hx] at hl
      rcases List.mem_cons.mp hl with h | h
      · subst h; exact absurd ha (List.not_mem_nil a)
      · exact ih l h a ha
    · rw [if_neg hx] at hl
      rcases hs : xs.splitOnP p with _ | ⟨h0, t⟩
      · exact absurd hs (splitOnP_ne_nil' p xs)
      · rw [hs] at hl
        simp only [List.modifyHead] at hl
        rcases List.mem_cons.mp hl with h | h
        · subst h
          rcases List.mem_cons.mp ha with h | h
          · subst h; exact Bool.of_not_eq_true hx
          · exact ih h0 (hs ▸ List.mem_cons_self h0 t) a h
        · exact ih l (hs ▸ List.mem_cons_of_mem h0 h) a ha

/-- `splitOnP` over an append decomposes into the split of the first part
with its last partial segment carried into the split of the second. -/
lemma splitOnP_append (p : Char → Bool) :
    ∀ x y : Str,
      (x ++ y).splitOnP p =
        (x.splitOnP p).dropLast ++ ((x.splitOnP p).getLastD [] ++ y).splitOnP p := by
  intro x
  induction x with
  | nil =>
    intro y
    simp [List.splitOnP_nil]
  | cons a x ih =>
    intro y
    rw [List.cons_append, List.splitOnP_cons, List.splitOnP_cons]
    by_cases ha : p a
    · rw [if_pos ha, if_pos ha]
      rcases hs : x.splitOnP p with _ | ⟨h0, t⟩
      · exact absurd hs (splitOnP_ne_nil' p x)
      · rw [ih y, hs]
        simp [List.getLastD_cons]
    · rw [if_neg ha, if_neg ha]
      rcases hs : x.splitOnP p with _ | ⟨h0, t⟩
      · exact absurd hs (splitOnP_ne_nil' p x)
      · rw [ih y, hs]
        rcases t with _ | ⟨t0, ts⟩
        · rw [List.modifyHead_cons, List.dropLast_single, List.dropLast_single,
            List.nil_append, List.nil_append]
          show List.modifyHead _ (List.splitOnP p (h0 ++ y)) =
            List.splitOnP p ((a :: h0) ++ y)
          rw [List.cons_append, List.splitOnP_cons, if_neg ha]
        · rw [List.modifyHead_cons]
          show _ = ((a :: h0) :: t0 :: ts).dropLast ++ _
          simp only [List.dropLast, List.getLastD_cons, List.cons_append,
            List.modifyHead_cons]

lemma splitOn_nl_append (x y : Str) :
    (x ++ y).splitOn '\n' =
      (x.splitOn '\n').dropLast ++ ((x.splitOn '\n').getLastD [] ++ y).splitOn '\n' := by
  simp only [List.splitOn]
  exact splitOnP_append (· == '\n') x y

/-- A newline-free list splits into itself alone. -/
lemma splitOn_nl_single (s : Str) (h : '\n' ∉ s) : s.splitOn '\n' = [s] := by
  unfold List.splitOn
  refine List.splitOnP_eq_single _ _ ?_
  intro y hy hbeq
  exact h (by rwa [eq_of_beq hbeq] at hy)

lemma splitOn_nl_no_nl (s : Str) : ∀ l ∈ s.splitOn '\n', '\n' ∉ l := by
  intro l hl hc
  have := splitOnP_all_not (· == '\n') s l hl '\n' hc
  simp at this

lemma getLastD_mem {α : Type} (l : List α) (d : α) (h : l ≠ []) : l.getLastD d ∈ l := by
  rw [List.getLastD_eq_getLast? , List.getLast?_eq_getLast l h]
  simp [List.getLast_mem]

/-- The iterated decoder produces exactly the one-shot split of the
concatenated input: the lines are all but the last segment, the final
buffer is the last segment. -/
lemma feedMany_eq (chunks : List Str) :
    ∀ buffer : Str, '\n' ∉ buffer →
      feedMany buffer chunks =
        (((buffer ++ chunks.flatten).splitOn '\n').dropLast,
          ((buffer ++ chunks.flatten).splitOn '\n').getLastD []) := by
  induction chunks with
  | nil =>
    intro buffer hb
    simp [feedMany, splitOn_nl_single buffer hb, List.getLastD_cons]
  | cons c cs ih =>
    intro buffer hb
    have hne0 : (buffer ++ c).splitOn '\n' ≠ [] := by
      simp only [List.splitOn]; exact splitOnP_ne_nil' _ _
    have hbuf2 : '\n' ∉ ((buffer ++ c).splitOn '\n').getLastD [] :=
      splitOn_nl_no_nl _ _ (getLastD_mem _ _ hne0)
    have key : ((buffer ++ c) ++ cs.flatten).splitOn '\n' =
        ((buffer ++ c).splitOn '\n').dropLast ++
          ((((buffer ++ c).splitOn '\n').getLastD []) ++ cs.flatten).splitOn '\n' :=
      splitOn_nl_append (buffer ++ c) cs.flatten
    have hne : ((((buffer ++ c).splitOn '\n').getLastD []) ++ cs.flatten).splitOn '\n' ≠ [] := by
      simp only [List.splitOn]; exact splitOnP_ne_nil' _ _
    have h1 : (((buffer ++ c) ++ cs.flatten).splitOn '\n').dropLast =
        ((buffer ++ c).splitOn '\n').dropLast ++
          (((((buffer ++ c).splitOn '\n').getLastD []) ++ cs.flatten).splitOn '\n').dropLast := by
      rw [key, List.dropLast_append_of_ne_nil _ hne]
    have h2 : (((buffer ++ c) ++ cs.flatten).splitOn '\n').getLastD [] =
        (((((buffer ++ c).splitOn '\n').getLastD []) ++ cs.flatten).splitOn '\n').getLastD [] := by
      rw [key]
      rcases hs : ((((buffer ++ c).splitOn '\n').getLastD []) ++ cs.flatten).splitOn '\n'
        with _ | ⟨h0, t⟩
      · exact absurd hs hne
      · rw [List.getLastD_eq_getLast?, List.getLastD_eq_getLast?,
          List.getLast?_append_of_ne_nil _ (by simp)]
    simp only [feedMany, feed, List.flatten_cons, ← List.append_assoc]
    rw [ih _ hbuf2, h1, h2]

/-! ### Stream-loop lemmas -/

lemma processLines_cons_none (J : Str → Option StreamChunk) {l : Str} (ls : List Str)
    (hp : parseFrame J l = none) :
    processLines J (l :: ls) = processLines J ls := by
  simp only [processLines, hp]

lemma processLines_cons_fin (J : Str → Option StreamChunk) {l : Str} (ls : List Str)
    {c : StreamChunk} (hp : parseFrame J l = some c) (hf : c.finished = true) :
    processLines J (l :: ls) = ([CB.chunk c, CB.complete], true) := by
  simp only [processLines, hp, hf, if_true]

lemma processLines_cons_nofin (J : Str → Option StreamChunk) {l : Str} (ls : List Str)
    {c : StreamChunk} (hp : parseFrame J l = some c) (hf : c.finished = false) :
    processLines J (l :: ls) =
      (CB.chunk c :: (processLines J ls).1, (processLines J ls).2) := by
  simp only [processLines, hp, hf, Bool.false_eq_true, if_false]

lemma readLoop_chunk_cons (J : Str → Option StreamChunk) (buffer s : Str)
    (rest : List ReadEv) :
    readLoop J buffer (ReadEv.chunk s :: rest) =
      if (processLines J (feed buffer s).1).2 then (processLines J (feed buffer s).1).1
      else (processLines J (feed buffer s).1).1 ++ readLoop J (feed buffer s).2 rest := rfl

/-- Shape of a single batch of line processing: with no finished chunk the
callbacks are pure `onChunk`s; with one, the trace is `onChunk`s followed
by a single final `onComplete`. -/
lemma processLines_shape (J : Str → Option StreamChunk) :
    ∀ ls : List Str,
      (((processLines J ls).2 = false ∧
          ∃ cs : List StreamChunk, (processLines J ls).1 = cs.map CB.chunk) ∨
        ((processLines J ls).2 = true ∧
          ∃ cs : List StreamChunk, (processLines J ls).1 = cs.map CB.chunk ++ [CB.complete])) := by
  intro ls
  induction ls with
  | nil => exact Or.inl ⟨rfl, [], rfl⟩
  | cons l ls ih =>
    rcases hp : parseFrame J l with _ | c
    · rw [processLines_cons_none J ls hp]
      exact ih
    · rcases hf : c.finished with _ | _
      · rw [processLines_cons_nofin J ls hp hf]
        rcases ih with ⟨h2, cs, h1⟩ | ⟨h2, cs, h1⟩
        · exact Or.inl ⟨h2, c :: cs, by simp [h1]⟩
        · exact Or.inr ⟨h2, c :: cs, by simp [h1]⟩
      · rw [processLines_cons_fin J ls hp hf]
        exact Or.inr ⟨rfl, [c], rfl⟩

lemma processLines_no_error (J : Str → Option StreamChunk) (ls : List Str) :
    CB.error ∉ (processLines J ls).1 := by
  rcases processLines_shape J ls with ⟨_, cs, h1⟩ | ⟨_, cs, h1⟩ <;> rw [h1] <;> simp

lemma processLines_complete_iff (J : Str → Option StreamChunk) (ls : List Str) :
    CB.complete ∈ (processLines J ls).1 ↔ (processLines J ls).2 = true := by
  rcases processLines_shape J ls with ⟨h2, cs, h1⟩ | ⟨h2, cs, h1⟩ <;> rw [h1, h2] <;> simp

/-- Shape of a whole read-loop trace: `onChunk`s followed by at most one
terminal callback. -/
lemma readLoop_shape (J : Str → Option StreamChunk) :
    ∀ (reads : List ReadEv) (buffer : Str),
      (∃ cs : List StreamChunk, readLoop J buffer reads = cs.map CB.chunk) ∨
      (∃ cs : List StreamChunk, readLoop J buffer reads = cs.map CB.chunk ++ [CB.complete]) ∨
      (∃ cs : List StreamChunk, readLoop J buffer reads = cs.map CB.chunk ++ [CB.error]) := by
  intro reads
  induction reads with
  | nil => exact fun _ => Or.inl ⟨[], rfl⟩
  | cons r rest ih =>
    intro buffer
    rcases r with s | _
    · rw [readLoop_chunk_cons]
      rcases processLines_shape J (feed buffer s).1 with ⟨h2, cs, h1⟩ | ⟨h2, cs, h1⟩
      · rw [h2]
        simp only [Bool.false_eq_true, if_false]
        rcases ih (feed buffer s).2 with ⟨ds, hd⟩ | ⟨ds, hd⟩ | ⟨ds, hd⟩
        · exact Or.inl ⟨cs ++ ds, by simp [h1, hd]⟩
        · exact Or.inr (Or.inl ⟨cs ++ ds, by simp [h1, hd]⟩)
        · exact Or.inr (Or.inr ⟨cs ++ ds, by simp [h1, hd]⟩)
      · rw [h2]
        simp only [if_true]
        exact Or.inr (Or.inl ⟨cs, h1⟩)
    · exact Or.inr (Or.inr ⟨[], rfl⟩)

/-- Once the loop has seen a finished chunk or an error, later transport
deliveries change nothing: the trace is stable under appending reads. -/
lemma readLoop_stable (J : Str → Option StreamChunk) :
    ∀ (reads more : List ReadEv) (buffer : Str),
      (CB.complete ∈ readLoop J buffer reads ∨ CB.error ∈ readLoop J buffer reads) →
      readLoop J buffer (reads ++ more) = readLoop J buffer reads := by
  intro reads
  induction reads with
  | nil => intro more buffer h; simp [readLoop] at h
  | cons r rest ih =>
    intro more buffer h
    rcases r with s | _
    · rw [List.cons_append, readLoop_chunk_cons, readLoop_chunk_cons]
      rw [readLoop_chunk_cons] at h
      rcases hb : (processLines J (feed buffer s).1).2 with _ | _
      · rw [hb] at h
        simp only [Bool.false_eq_true, if_false] at h ⊢
        have hterm : CB.complete ∈ readLoop J (feed buffer s).2 rest ∨
            CB.error ∈ readLoop J (feed buffer s).2 rest := by
          have hnc : CB.complete ∉ (processLines J (feed buffer s).1).1 := by
            rw [processLines_complete_iff, hb]; simp
          have hne : CB.error ∉ (processLines J (feed buffer s).1).1 :=
            processLines_no_error J _
          rcases h with h | h <;> rcases List.mem_append.mp h with h' | h'
          · exact absurd h' hnc
          · exact Or.inl h'
          · exact absurd h' hne
          · exact Or.inr h'
        rw [ih more _ hterm]
      · simp only [if_true]
    · rfl

/-- An error callback can only come from a failing transport read. -/
lemma readLoop_error_fail (J : Str → Option StreamChunk) :
    ∀ (reads : List ReadEv) (buffer : Str),
      CB.error ∈ readLoop J buffer reads → ReadEv.fail ∈ reads := by
  intro reads
  induction reads with
  | nil => intro buffer h; simp [readLoop] at h
  | cons r rest ih =>
    intro buffer h
    rcases r with s | _
    · rw [readLoop_chunk_cons] at h
      rcases hb : (processLines J (feed buffer s).1).2 with _ | _
      · rw [hb] at h
        simp only [Bool.false_eq_true, if_false] at h
        rcases List.mem_append.mp h with h' | h'
        · exact absurd h' (processLines_no_error J _)
        · exact List.mem_cons_of_mem _ (ih _ h')
      · rw [hb] at h
        simp only [if_true] at h
        exact absurd h (processLines_no_error J _)
    · exact List.mem_cons_self _ _

/-- A failing read is reached unless a finished chunk stopped the loop
first: with a `fail` among the reads, the trace ends in a terminal
callback. -/
lemma readLoop_fail_terminal (J : Str → Option StreamChunk) :
    ∀ (reads : List ReadEv) (buffer : Str),
      ReadEv.fail ∈ reads →
      CB.complete ∈ readLoop J buffer reads ∨ CB.error ∈ readLoop J buffer reads := by
  intro reads
  induction reads with
  | nil => intro buffer h; exact absurd h (List.not_mem_nil _)
  | cons r rest ih =>
    intro buffer h
    rcases r with s | _
    · rw [readLoop_chunk_cons]
      rcases hb : (processLines J (feed buffer s).1).2 with _ | _
      · simp only [Bool.false_eq_true, if_false]
        have h' : ReadEv.fail ∈ rest := by
          rcases List.mem_cons.mp h with h | h
          · exact absurd h (by simp)
          · exact h
        rcases ih (feed buffer s).2 h' with hc | hc
        · exact Or.inl (List.mem_append.mpr (Or.inr hc))
        · exact Or.inr (List.mem_append.mpr (Or.inr hc))
      · simp only [if_true]
        exact Or.inl ((processLines_complete_iff J _).mpr hb)
    · exact Or.inr (List.mem_cons_self _ _)

/-- A chunk with the finished flag, once delivered, forces completion of
that batch. -/
lemma processLines_finished_chunk (J : Str → Option StreamChunk) :
    ∀ (ls : List Str) (c : StreamChunk),
      CB.chunk c ∈ (processLines J ls).1 → c.finished = true →
      (processLines J ls).2 = true := by
  intro ls
  induction ls with
  | nil => intro c h _; simp [processLines] at h
  | cons l ls ih =>
    intro c h hf
    rcases hp : parseFrame J l with _ | c'
    · rw [processLines_cons_none J ls hp] at h ⊢
      exact ih c h hf
    · rcases hfin : c'.finished with _ | _
      · rw [processLines_cons_nofin J ls hp hfin] at h ⊢
        rcases List.mem_cons.mp h with h' | h'
        · cases h'
          rw [hf] at hfin
          exact absurd hfin (by simp)
        · exact ih c h' hf
      · rw [processLines_cons_fin J ls hp hfin]

/-- A finished chunk delivered by the read loop is always followed by the
completion callback. -/
lemma readLoop_finished_chunk (J : Str → Option StreamChunk) :
    ∀ (reads : List ReadEv) (buffer : Str) (c : StreamChunk),
      CB.chunk c ∈ readLoop J buffer reads → c.finished = true →
      CB.complete ∈ readLoop J buffer reads := by
  intro reads
  induction reads with
  | nil => intro buffer c h _; simp [readLoop] at h
  | cons r rest ih =>
    intro buffer c h hf
    rcases r with s | _
    · rw [readLoop_chunk_cons] at h ⊢
      rcases hb : (processLines J (feed buffer s).1).2 with _ | _
      · rw [hb] at h
        simp only [Bool.false_eq_true, if_false] at h ⊢
        rcases List.mem_append.mp h with h' | h'
        · have hdone := processLines_finished_chunk J _ c h' hf
          rw [hb] at hdone
          exact absurd hdone (by simp)
        · exact List.mem_append.mpr (Or.inr (ih _ c h' hf))
      · rw [hb] at h
        simp only [if_true] at h ⊢
        exact (processLines_complete_iff J _).mpr hb
    · simp [readLoop] at h

/-- With no failing read, no error callback ever fires. -/
lemma readLoop_no_fail_no_error (J : Str → Option StreamChunk) :
    ∀ (reads : List ReadEv) (buffer : Str),
      ReadEv.fail ∉ reads → CB.error ∉ readLoop J buffer reads := by
  intro reads buffer hnf he
  exact hnf (readLoop_error_fail J reads buffer he)

/-! ### Accumulator lemmas -/

/-- The value of the latest element of `l` that is present (truthy under
`tr`), defaulting to `d` — the spec's "latest wins" reading. -/
def lastPresent {β : Type} (tr : Option β → Bool) (d : Option β)
    (l : List (Option β)) : Option β :=
  match l.reverse.find? tr with
  | some o => o
  | none => d

lemma lastPresent_nil {β : Type} (tr : Option β → Bool) (d : Option β) :
    lastPresent tr d [] = d := rfl

lemma lastPresent_cons {β : Type} (tr : Option β → Bool) (d : Option β)
    (x : Option β) (l : List (Option β)) :
    lastPresent tr d (x :: l) = lastPresent tr (if tr x then x else d) l := by
  unfold lastPresent
  rw [List.reverse_cons, List.find?_append]
  rcases hf : l.reverse.find? tr with _ | o
  · rw [Option.none_or]
    show (match List.find? tr [x] with | some o => o | none => d) = _
    by_cases hx : tr x
    · simp [List.find?, hx]
    · simp [List.find?, hx]
  · rfl

lemma strT_false_getD (o : Option Str) (h : strT o = false) : o.getD [] = [] := by
  rcases o with _ | s
  · rfl
  · simp only [strT, Bool.not_eq_false'] at h
    simpa [Option.getD] using List.isEmpty_iff.mp h

/-- The accumulated content is the concatenation, in arrival order, of the
chunks' content fields. -/
lemma foldl_accStep_content :
    ∀ (cs : List StreamChunk) (a : StreamAcc),
      (cs.foldl accStep a).fullContent =
        a.fullContent ++ (cs.map fun c => c.content.getD []).flatten := by
  intro cs
  induction cs with
  | nil => intro a; simp
  | cons c cs ih =>
    intro a
    rw [List.foldl_cons, ih, List.map_cons, List.flatten_cons, ← List.append_assoc]
    congr 1
    show (accStep a c).fullContent = _
    unfold accStep
    by_cases hc : strT c.content
    · rw [if_pos hc]
    · rw [if_neg hc, strT_false_getD c.content (Bool.of_not_eq_true hc), List.append_nil]

/-- Each metadata field of the accumulator is the latest truthy value among
the chunks, the prior value when none is present. -/
lemma foldl_accStep_meta :
    ∀ (cs : List StreamChunk) (a : StreamAcc),
      (cs.foldl accStep a).finalConversationId =
        lastPresent strT a.finalConversationId (cs.map fun c => c.conversation_id) ∧
      (cs.foldl accStep a).finalUserMessageId =
        lastPresent numT a.finalUserMessageId (cs.map fun c => c.user_message_id) ∧
      (cs.foldl accStep a).finalAssistantMessageId =
        lastPresent numT a.finalAssistantMessageId
          (cs.map fun c => c.assistant_message_id) := by
  intro cs
  induction cs with
  | nil => intro a; exact ⟨rfl, rfl, rfl⟩
  | cons c cs ih =>
    intro a
    rw [List.foldl_cons, List.map_cons, List.map_cons, List.map_cons,
      lastPresent_cons, lastPresent_cons, lastPresent_cons]
    have h := ih (accStep a c)
    refine ⟨?_, ?_, ?_⟩
    · rw [h.1]; rfl
    · rw [h.2.1]; rfl
    · rw [h.2.2]; rfl

/-! ### Store lemmas -/

lemma chunkMsgs_shape (aid : Int) (full : Str) (c : StreamChunk)
    (base : List ChatMessage) (u asst : ChatMessage)
    (hbase : ∀ m ∈ base, m.id ≠ aid) (hu : u.id ≠ aid) (ha : asst.id = aid) :
    chunkMsgs aid full c (base ++ [u, asst]) =
      if strT c.content then base ++ [u, { asst with content := full }]
      else base ++ [u, asst] := by
  unfold chunkMsgs
  by_cases hc : strT c.content
  · rw [if_pos hc, if_pos hc, List.map_append]
    congr 1
    · exact (List.map_congr_left fun m hm => if_neg (hbase m hm)).trans (List.map_id base)
    · simp [if_neg hu, ha]
  · rw [if_neg hc, if_neg hc]

/-- Folding a pure chunk trace into the store: the accumulator folds the
chunks, the assistant placeholder carries the accumulated content, and
nothing else changes. -/
lemma applyCBs_chunks :
    ∀ (cs : List StreamChunk) (uid aid : Int) (oc : Option Str) (a : StreamAcc)
      (st : ChatState) (base : List ChatMessage) (u asst : ChatMessage),
      (∀ m ∈ base, m.id ≠ aid) → u.id ≠ aid → asst.id = aid →
      st.messages = base ++ [u, asst] → asst.content = a.fullContent →
      applyCBs uid aid oc (a, st) (cs.map CB.chunk) =
        (cs.foldl accStep a,
          { st with messages :=
              base ++ [u, { asst with content := (cs.foldl accStep a).fullContent }] }) := by
  intro cs
  induction cs with
  | nil =>
    intro uid aid oc a st base u asst hbase hu ha hmsgs hcont
    show (a, st) = _
    rw [List.foldl_nil, ← hcont]
    have h : { asst with content := asst.content } = asst := rfl
    rw [h, ← hmsgs]
  | cons c cs ih =>
    intro uid aid oc a st base u asst hbase hu ha hmsgs hcont
    rw [List.map_cons]
    show applyCBs uid aid oc (applyCB uid aid oc (a, st) (CB.chunk c)) (cs.map CB.chunk) = _
    have hstep : applyCB uid aid oc (a, st) (CB.chunk c) =
        (accStep a c,
          { st with messages :=
              base ++ [u, { asst with content := (accStep a c).fullContent }] }) := by
      show (accStep a c, { st with messages := chunkMsgs aid (accStep a c).fullContent c st.messages }) = _
      rw [hmsgs, chunkMsgs_shape aid _ c base u asst hbase hu ha]
      by_cases hc : strT c.content
      · rw [if_pos hc]
      · rw [if_neg hc]
        have hsame : (accStep a c).fullContent = a.fullContent := by
          unfold accStep
          rw [if_neg hc]
        rw [hsame, ← hcont]
    rw [hstep, ih uid aid oc (accStep a c) _ base u { asst with content := (accStep a c).fullContent }
      hbase hu ha rfl rfl]
    rw [List.foldl_cons]

lemma rollback_shape (uid aid : Int) (base : List ChatMessage) (u asst : ChatMessage)
    (hbase : ∀ m ∈ base, m.id ≠ uid ∧ m.id ≠ aid) (hu : u.id = uid) (ha : asst.id = aid) :
    rollback uid aid (base ++ [u, asst]) = base := by
  unfold rollback
  rw [List.filter_append]
  have h1 : base.filter (fun m => m.id != aid && m.id != uid) = base := by
    apply List.filter_eq_self.mpr
    intro m hm
    have := hbase m hm
    simp [this.1, this.2]
  have h2 : [u, asst].filter (fun m => m.id != aid && m.id != uid) = [] := by
    simp [List.filter, hu, ha]
  rw [h1, h2, List.append_nil]

lemma reconcile_shape (uid aid : Int) (a : StreamAcc) (base : List ChatMessage)
    (u asst : ChatMessage)
    (hbase : ∀ m ∈ base, m.id ≠ uid ∧ m.id ≠ aid) :
    reconcile uid aid a (base ++ [u, asst]) =
      base ++ [reconOne uid aid a u, reconOne uid aid a asst] := by
  unfold reconcile
  rw [List.map_append]
  congr 1
  refine (List.map_congr_left ?_).trans (List.map_id base)
  intro m hm
  have h := hbase m hm
  unfold reconOne
  rw [if_neg (by simp [h.1]), if_neg (by simp [h.2])]
  rfl

/-! ### Notification-buffer lemmas -/

lemma lastN_reverse {α : Type} (l : List α) (n : Nat) :
    l.drop (l.length - n) = (l.reverse.take n).reverse := by
  rw [List.take_reverse, List.reverse_reverse]

lemma lastN_append_lastN {α : Type} (n : Nat) (a b : List α) :
    (a.drop (a.length - n) ++ b).drop ((a.drop (a.length - n) ++ b).length - n) =
      (a ++ b).drop ((a ++ b).length - n) := by
  rw [lastN_reverse (a.drop (a.length - n) ++ b) n, lastN_reverse (a ++ b) n]
  congr 1
  rw [List.reverse_append, List.reverse_append]
  rw [List.take_append_eq_append_take, List.take_append_eq_append_take]
  congr 1
  rw [lastN_reverse a n, List.reverse_reverse, List.take_take]
  congr 1
  exact min_eq_left (Nat.sub_le n _)

lemma handleEvent_dup (prev : List NotificationEvent) (e : NotificationEvent)
    (h : (prev.any fun n => n.event_id = e.event_id) = true) :
    handleEvent prev e = prev := by
  unfold handleEvent
  rw [h]
  simp

lemma handleEvent_fresh (prev : List NotificationEvent) (e : NotificationEvent)
    (h : (prev.any fun n => n.event_id = e.event_id) = false) :
    handleEvent prev e = (prev ++ [e]).drop ((prev ++ [e]).length - 100) := by
  unfold handleEvent
  rw [h]
  simp

lemma handleEvent_length_le (prev : List NotificationEvent) (e : NotificationEvent)
    (h : prev.length ≤ 100) : (handleEvent prev e).length ≤ 100 := by
  rcases ha : (prev.any fun n => n.event_id = e.event_id) with _ | _
  · rw [handleEvent_fresh prev e ha, List.length_drop]
    omega
  · rw [handleEvent_dup prev e ha]
    exact h

lemma handleEvents_length_le :
    ∀ (es prev : List NotificationEvent), prev.length ≤ 100 →
      (handleEvents prev es).length ≤ 100 := by
  intro es
  induction es with
  | nil => intro prev h; exact h
  | cons e es ih =>
    intro prev h
    exact ih (handleEvent prev e) (handleEvent_length_le prev e h)

lemma handleEvent_nodup (prev : List NotificationEvent) (e : NotificationEvent)
    (h : (prev.map fun n => n.event_id).Nodup) :
    ((handleEvent prev e).map fun n => n.event_id).Nodup := by
  rcases ha : (prev.any fun n => n.event_id = e.event_id) with _ | _
  · rw [handleEvent_fresh prev e ha]
    have hfresh : e.event_id ∉ prev.map fun n => n.event_id := by
      simp only [List.any_eq_false, decide_eq_true_eq] at ha
      intro hmem
      rcases List.mem_map.mp hmem with ⟨n, hn, hne⟩
      exact ha n hn hne
    have hnodup : ((prev ++ [e]).map fun n => n.event_id).Nodup := by
      rw [List.map_append]
      refine List.Nodup.append h (List.nodup_singleton _) ?_
      intro x hx hx'
      simp only [List.map_cons, List.map_nil, List.mem_singleton] at hx'
      subst hx'
      exact hfresh hx
    exact hnodup.sublist ((List.drop_sublist _ _).map _)
  · rw [handleEvent_dup prev e ha]
    exact h

lemma handleEvents_nodup :
    ∀ (es prev : List NotificationEvent), (prev.map fun n => n.event_id).Nodup →
      ((handleEvents prev es).map fun n => n.event_id).Nodup := by
  intro es
  induction es with
  | nil => intro prev h; exact h
  | cons e es ih =>
    intro prev h
    exact ih (handleEvent prev e) (handleEvent_nodup prev e h)

/-- Dispatching events with pairwise-distinct ids into a buffer that
already holds at most 100 id-distinct entries retains exactly the most
recent 100 of the whole arrival sequence. -/
lemma handleEvents_distinct :
    ∀ (es prev : List NotificationEvent), prev.length ≤ 100 →
      (((prev ++ es).map fun n => n.event_id).Nodup) →
      handleEvents prev es = (prev ++ es).drop ((prev ++ es).length - 100) := by
  intro es
  induction es with
  | nil =>
    intro prev hlen _
    rw [List.append_nil, Nat.sub_eq_zero_of_le hlen, List.drop_zero]
    rfl
  | cons e es ih =>
    intro prev hlen hnodup
    have hfresh : (prev.any fun n => n.event_id = e.event_id) = false := by
      simp only [List.any_eq_false, decide_eq_true_eq]
      intro n hn hne
      rw [List.map_append, List.map_cons] at hnodup
      have hdisj := (List.nodup_append.mp hnodup).2.2
      exact hdisj (List.mem_map_of_mem _ hn) (by rw [hne]; exact List.mem_cons_self _ _)
    show handleEvents (handleEvent prev e) es = _
    rw [handleEvent_fresh prev e hfresh]
    have hsub : ((prev ++ [e]).drop ((prev ++ [e]).length - 100) ++ es).Sublist
        ((prev ++ [e]) ++ es) :=
      List.Sublist.append (List.drop_sublist _ _) (List.Sublist.refl es)
    have hlen1 : ((prev ++ [e]).drop ((prev ++ [e]).length - 100)).length ≤ 100 := by
      rw [List.length_drop]
      omega
    have hnodup1 :
        ((((prev ++ [e]).drop ((prev ++ [e]).length - 100)) ++ es).map
          fun n => n.event_id).Nodup := by
      refine List.Nodup.sublist (hsub.map _) ?_
      rw [List.append_assoc, List.singleton_append]
      exact hnodup
    rw [ih _ hlen1 hnodup1, lastN_append_lastN, List.append_assoc, List.singleton_append]

lemma dropLast_append_getLastD {α : Type} (l : List α) (d : α) (h : l ≠ []) :
    l.dropLast ++ [l.getLastD d] = l := by
  rw [List.getLastD_eq_getLast?, List.getLast?_eq_getLast l h]
  exact List.dropLast_append_getLast h

/-! ### Claim theorems -/

/-- C6: for every sequence of text-chunk feeds, the decoder emits exactly
the lines of the one-shot newline split of the concatenated input — all
but the last segment — and retains the last (possibly empty) segment as
the buffer, so the split never differs from the one-shot split and the
carry-over is never dropped (joining the emitted lines and the final
buffer with newlines reconstructs the whole input); in particular feeding
`"ab"` then `"c\ndef\n"` yields exactly `["abc", "def"]` with an empty
final buffer. -/
theorem c6_line_buffering :
    (∀ chunks : List Str,
        feedMany [] chunks =
          ((chunks.flatten.splitOn '\n').dropLast,
            (chunks.flatten.splitOn '\n').getLastD []) ∧
        ['\n'].intercalate ((feedMany [] chunks).1 ++ [(feedMany [] chunks).2]) =
          chunks.flatten) ∧
    feedMany [] [str "ab", str "c\ndef\n"] = ([str "abc", str "def"], []) := by
  constructor
  · intro chunks
    have h := feedMany_eq chunks [] (List.not_mem_nil _)
    rw [List.nil_append] at h
    refine ⟨h, ?_⟩
    rw [h]
    show ['\n'].intercalate ((chunks.flatten.splitOn '\n').dropLast ++
      [(chunks.flatten.splitOn '\n').getLastD []]) = _
    rw [dropLast_append_getLastD _ _ (by simp only [List.splitOn]; exact splitOnP_ne_nil' _ _)]
    exact List.intercalate_splitOn chunks.flatten '\n'
  · decide

/-- C7: a line yields a parsed payload only when it starts with the
literal `"data: "` marker; a matching line yields exactly the result of
JSON-parsing its remainder (so invalid JSON yields nothing); a
non-matching (or empty) line yields nothing; and a line that yields
nothing leaves the processing of the remaining lines unchanged — a parse
failure never aborts the stream. -/
theorem c7_frame_parsing :
    ∀ (J : Str → Option StreamChunk) (line : Str) (ls : List Str),
      ((parseFrame J line).isSome = true → line.take 6 = dataMark) ∧
      (line.take 6 = dataMark → parseFrame J line = J (line.drop 6)) ∧
      (line.take 6 ≠ dataMark → parseFrame J line = none) ∧
      (parseFrame J line = none → processLines J (line :: ls) = processLines J ls) := by
  intro J line ls
  refine ⟨?_, ?_, ?_, ?_⟩
  · intro h
    by_contra hne
    rw [parseFrame, if_neg hne] at h
    simp at h
  · intro h
    rw [parseFrame, if_pos h]
  · intro h
    rw [parseFrame, if_neg h]
  · intro h
    exact processLines_cons_none J ls h

theorem c7_witness :
    parseFrame Jdemo (str "not a frame") = none ∧
    parseFrame Jdemo (str "data: \x7bbad json") = none ∧
    processLines Jdemo [str "data: \x7bbad json", str "data: \x7b\"content\":\"hi\"\x7d"] =
      processLines Jdemo [str "data: \x7b\"content\":\"hi\"\x7d"] :=
  ⟨(c7_frame_parsing Jdemo (str "not a frame") []).2.2.1 (by decide),
   ((c7_frame_parsing Jdemo (str "data: \x7bbad json") []).2.1 (by decide)).trans (by decide),
   (c7_frame_parsing Jdemo (str "data: \x7bbad json")
      [str "data: \x7b\"content\":\"hi\"\x7d"]).2.2.2 (by decide)⟩

/-- C4 counterexample: with an OK response and readable body, a single
read delivering the parseable terminal line `data: {"content":"hi"}` NOT
followed by a newline produces an empty callback trace — the line is never
parsed and its chunk is never delivered to `onChunk`, contradicting the
claim that a terminal `data:` line is still parsed at stream end. -/
theorem c4_counterexample :
    sendStreamApi Jdemo true true
        [ReadEv.chunk (str "data: \x7b\"content\":\"hi\"\x7d")] = [] ∧
    Jdemo ((str "data: \x7b\"content\":\"hi\"\x7d").drop 6) =
      some { content := some (str "hi") } ∧
    CB.chunk { content := some (str "hi") } ∉
      sendStreamApi Jdemo true true
        [ReadEv.chunk (str "data: \x7b\"content\":\"hi\"\x7d")] := by
  refine ⟨by decide, by decide, ?_⟩
  intro h
  exact absurd h (by decide)

/-- C4 (amended): at end-of-stream the decoder's carry-over buffer is
discarded, not flushed: reaching the end of the reads yields no further
callbacks, and a final read whose text contains no newline (such as a
terminal `data: <json>` line without a trailing newline) yields no
callbacks at all — it is never parsed nor delivered. -/
theorem c4_flush_amended :
    ∀ (J : Str → Option StreamChunk) (buffer : Str),
      readLoop J buffer [] = [] ∧
      (∀ s : Str, '\n' ∉ buffer ++ s → readLoop J buffer [ReadEv.chunk s] = []) := by
  intro J buffer
  refine ⟨rfl, ?_⟩
  intro s hnl
  rw [readLoop_chunk_cons]
  have hfeed : (feed buffer s).1 = [] := by
    show ((buffer ++ s).splitOn '\n').dropLast = []
    rw [splitOn_nl_single _ hnl]
    rfl
  rw [hfeed]
  show (if (processLines J []).2 then _ else _) = _
  simp [processLines, readLoop]

theorem c4_witness :
    readLoop Jdemo (str "data: \x7b\"co")
      [ReadEv.chunk (str "ntent\":\"hi\"\x7d")] = [] :=
  (c4_flush_amended Jdemo (str "data: \x7b\"co")).2 (str "ntent\":\"hi\"\x7d") (by decide)

lemma complete_not_mem_map_chunk (cs : List StreamChunk) :
    CB.complete ∉ cs.map CB.chunk := by simp

lemma error_not_mem_map_chunk (cs : List StreamChunk) :
    CB.error ∉ cs.map CB.chunk := by simp

/-- C5: for any single streaming call, `onComplete` fires at most once and,
when it fires, it is the last callback of the trace with only `onChunk`s
before it; the same holds for `onError`; the two terminals never both
occur; once a terminal has fired, further transport deliveries change
nothing; and `onError` occurs exactly when the HTTP status is non-OK, the
body is missing, or a transport read fails before a finished chunk has
completed the stream. -/
theorem c5_terminal_callbacks :
    ∀ (J : Str → Option StreamChunk) (ok hasBody : Bool) (reads : List ReadEv),
      (CB.complete ∈ sendStreamApi J ok hasBody reads →
        ∃ cs : List StreamChunk,
          sendStreamApi J ok hasBody reads = cs.map CB.chunk ++ [CB.complete]) ∧
      (CB.error ∈ sendStreamApi J ok hasBody reads →
        ∃ cs : List StreamChunk,
          sendStreamApi J ok hasBody reads = cs.map CB.chunk ++ [CB.error]) ∧
      ¬(CB.complete ∈ sendStreamApi J ok hasBody reads ∧
          CB.error ∈ sendStreamApi J ok hasBody reads) ∧
      (∀ more : List ReadEv,
        CB.complete ∈ sendStreamApi J ok hasBody reads ∨
          CB.error ∈ sendStreamApi J ok hasBody reads →
        sendStreamApi J ok hasBody (reads ++ more) = sendStreamApi J ok hasBody reads) ∧
      (CB.error ∈ sendStreamApi J ok hasBody reads ↔
        (ok = false ∨ hasBody = false ∨
          (ReadEv.fail ∈ reads ∧ CB.complete ∉ sendStreamApi J ok hasBody reads))) ∧
      (∀ c : StreamChunk, CB.chunk c ∈ sendStreamApi J ok hasBody reads →
        c.finished = true → CB.complete ∈ sendStreamApi J ok hasBody reads) := by
  intro J ok hasBody reads
  rcases ok with _ | _
  · refine ⟨?_, ?_, ?_, ?_, ?_, ?_⟩
    · intro h; simp [sendStreamApi] at h
    · intro _; exact ⟨[], rfl⟩
    · rintro ⟨h, _⟩; simp [sendStreamApi] at h
    · intro more _; rfl
    · constructor
      · intro _; exact Or.inl rfl
      · intro _; show CB.error ∈ [CB.error]; exact List.mem_singleton.mpr rfl
    · intro c h _; simp [sendStreamApi] at h
  · rcases hasBody with _ | _
    · refine ⟨?_, ?_, ?_, ?_, ?_, ?_⟩
      · intro h; simp [sendStreamApi] at h
      · intro _; exact ⟨[], rfl⟩
      · rintro ⟨h, _⟩; simp [sendStreamApi] at h
      · intro more _; rfl
      · constructor
        · intro _; exact Or.inr (Or.inl rfl)
        · intro _; show CB.error ∈ [CB.error]; exact List.mem_singleton.mpr rfl
      · intro c h _; simp [sendStreamApi] at h
    · have htr : sendStreamApi J true true reads = readLoop J [] reads := rfl
      have htr2 : ∀ more, sendStreamApi J true true (reads ++ more) =
          readLoop J [] (reads ++ more) := fun _ => rfl
      have hc : CB.complete ∈ readLoop J [] reads →
          ∃ cs : List StreamChunk,
            readLoop J [] reads = cs.map CB.chunk ++ [CB.complete] := by
        intro h
        rcases readLoop_shape J reads [] with ⟨cs, hs⟩ | ⟨cs, hs⟩ | ⟨cs, hs⟩
        · rw [hs] at h
          exact absurd h (complete_not_mem_map_chunk cs)
        · exact ⟨cs, hs⟩
        · rw [hs] at h
          rcases List.mem_append.mp h with h' | h'
          · exact absurd h' (complete_not_mem_map_chunk cs)
          · simp at h'
      have he : CB.error ∈ readLoop J [] reads →
          ∃ cs : List StreamChunk,
            readLoop J [] reads = cs.map CB.chunk ++ [CB.error] := by
        intro h
        rcases readLoop_shape J reads [] with ⟨cs, hs⟩ | ⟨cs, hs⟩ | ⟨cs, hs⟩
        · rw [hs] at h
          exact absurd h (error_not_mem_map_chunk cs)
        · rw [hs] at h
          rcases List.mem_append.mp h with h' | h'
          · exact absurd h' (error_not_mem_map_chunk cs)
          · simp at h'
        · exact ⟨cs, hs⟩
      have hboth : ¬(CB.complete ∈ readLoop J [] reads ∧ CB.error ∈ readLoop J [] reads) := by
        rintro ⟨h1, h2⟩
        rcases hc h1 with ⟨cs, hs⟩
        rw [hs] at h2
        rcases List.mem_append.mp h2 with h' | h'
        · exact absurd h' (error_not_mem_map_chunk cs)
        · simp at h'
      rw [htr]
      refine ⟨hc, he, hboth, ?_, ?_, ?_⟩
      · intro more h
        rw [htr2 more]
        exact readLoop_stable J reads more [] h
      swap
      · intro c h hf
        exact readLoop_finished_chunk J reads [] c h hf
      · constructor
        · intro h
          refine Or.inr (Or.inr ⟨readLoop_error_fail J reads [] h, fun hcm => hboth ⟨hcm, h⟩⟩)
        · rintro (h | h | ⟨hfail, hnc⟩)
          · exact absurd h (by simp)
          · exact absurd h (by simp)
          · rcases readLoop_fail_terminal J reads [] hfail with h | h
            · exact absurd h hnc
            · exact h

theorem c5_witness :
    CB.error ∈ sendStreamApi Jdemo true true [ReadEv.fail] ∧
    sendStreamApi Jdemo true true
        ([ReadEv.chunk (str
          "data: \x7b\"finished\":true,\"user_message_id\":1,\"assistant_message_id\":2\x7d\n")] ++
          [ReadEv.fail]) =
      sendStreamApi Jdemo true true
        [ReadEv.chunk (str
          "data: \x7b\"finished\":true,\"user_message_id\":1,\"assistant_message_id\":2\x7d\n")] :=
  ⟨(c5_terminal_callbacks Jdemo true true [ReadEv.fail]).2.2.2.2.1.mpr
      (Or.inr (Or.inr ⟨by decide, by decide⟩)),
   (c5_terminal_callbacks Jdemo true true
      [ReadEv.chunk (str
        "data: \x7b\"finished\":true,\"user_message_id\":1,\"assistant_message_id\":2\x7d\n")]).2.2.2.1
     [ReadEv.fail] (Or.inl (by decide))⟩

lemma applyCBs_append (uid aid : Int) (oc : Option Str) (st : StreamAcc × ChatState)
    (l1 l2 : List CB) :
    applyCBs uid aid oc st (l1 ++ l2) = applyCBs uid aid oc (applyCBs uid aid oc st l1) l2 :=
  List.foldl_append _ _ _ _

lemma applyCBs_singleton (uid aid : Int) (oc : Option Str) (st : StreamAcc × ChatState)
    (cb : CB) : applyCBs uid aid oc st [cb] = applyCB uid aid oc st cb := rfl

lemma applyCB_error (uid aid : Int) (oc : Option Str) (a : StreamAcc) (st : ChatState) :
    applyCB uid aid oc (a, st) CB.error =
      (a, { st with messages := rollback uid aid st.messages, errorSurfaced := true }) := rfl

lemma applyCB_complete (uid aid : Int) (oc : Option Str) (a : StreamAcc) (st : ChatState) :
    applyCB uid aid oc (a, st) CB.complete =
      (a, { st with
              messages := reconcile uid aid a st.messages,
              currentConversation :=
                if !strT oc && strT a.finalConversationId then a.finalConversationId
                else st.currentConversation,
              refreshTriggered :=
                st.refreshTriggered || (!strT oc && strT a.finalConversationId) }) := rfl

lemma sendStream_nonempty (now : Int) (text : Str) (s0 : ChatState) (cbs : List CB)
    (htrim : (trimStr text).isEmpty = false) :
    sendStream now text s0 cbs =
      (applyCBs now (now + 1) s0.currentConversation
        (initAcc s0,
          { s0 with messages :=
              s0.messages ++ [optimisticUser now text s0, optimisticAsst now s0] })
        cbs).2 := by
  unfold sendStream
  rw [htrim]
  simp

lemma applyCBs_chunks_send (now : Int) (text : Str) (s0 : ChatState)
    (cs : List StreamChunk)
    (hfresh : ∀ m ∈ s0.messages, m.id ≠ now ∧ m.id ≠ now + 1) :
    applyCBs now (now + 1) s0.currentConversation
        (initAcc s0,
          { s0 with messages :=
              s0.messages ++ [optimisticUser now text s0, optimisticAsst now s0] })
        (cs.map CB.chunk) =
      (cs.foldl accStep (initAcc s0),
        { s0 with messages :=
            s0.messages ++ [optimisticUser now text s0,
              { optimisticAsst now s0 with
                  content := (cs.foldl accStep (initAcc s0)).fullContent }] }) := by
  exact applyCBs_chunks cs now (now + 1) s0.currentConversation (initAcc s0) _
    s0.messages (optimisticUser now text s0) (optimisticAsst now s0)
    (fun m hm => (hfresh m hm).2) (by show now ≠ now + 1; omega) rfl rfl rfl

/-- C10: with an OK response and a readable body, if the transport signals
end-of-stream before any finished chunk (and never fails), the call
returns with neither `onComplete` nor `onError` ever fired — the trace is
pure `onChunk`s — and the store is left with both optimistic messages
still in the list under their placeholder ids, the current conversation
and all flags unchanged. -/
theorem c10_no_terminal_callbacks :
    ∀ (J : Str → Option StreamChunk) (reads : List ReadEv) (now : Int) (text : Str)
      (s0 : ChatState),
      ReadEv.fail ∉ reads →
      CB.complete ∉ sendStreamApi J true true reads →
      (trimStr text).isEmpty = false →
      (∀ m ∈ s0.messages, m.id ≠ now ∧ m.id ≠ now + 1) →
      CB.error ∉ sendStreamApi J true true reads ∧
      ∃ cs : List StreamChunk,
        sendStreamApi J true true reads = cs.map CB.chunk ∧
        sendStream now text s0 (sendStreamApi J true true reads) =
          { s0 with messages :=
              s0.messages ++ [optimisticUser now text s0,
                { optimisticAsst now s0 with
                    content := (cs.foldl accStep (initAcc s0)).fullContent }] } := by
  intro J reads now text s0 hnf hnc htrim hfresh
  have htr : sendStreamApi J true true reads = readLoop J [] reads := rfl
  have herr : CB.error ∉ sendStreamApi J true true reads := by
    rw [htr]
    exact readLoop_no_fail_no_error J reads [] hnf
  refine ⟨herr, ?_⟩
  have hcs : ∃ cs : List StreamChunk,
      sendStreamApi J true true reads = cs.map CB.chunk := by
    rw [htr] at hnc herr ⊢
    rcases readLoop_shape J reads [] with ⟨cs, hs⟩ | ⟨cs, hs⟩ | ⟨cs, hs⟩
    · exact ⟨cs, hs⟩
    · rw [hs] at hnc
      exact absurd (List.mem_append.mpr (Or.inr (List.mem_singleton.mpr rfl))) hnc
    · rw [hs] at herr
      exact absurd (List.mem_append.mpr (Or.inr (List.mem_singleton.mpr rfl))) herr
  rcases hcs with ⟨cs, hs⟩
  refine ⟨cs, hs, ?_⟩
  rw [hs, sendStream_nonempty now text s0 _ htrim,
    applyCBs_chunks_send now text s0 cs hfresh]

theorem c10_witness :
    CB.error ∉ sendStreamApi Jdemo true true
      [ReadEv.chunk (str "data: \x7b\"content\":\"hi\"\x7d\n")] :=
  (c10_no_terminal_callbacks Jdemo
      [ReadEv.chunk (str "data: \x7b\"content\":\"hi\"\x7d\n")] 50 (str "hey")
      { messages := [], currentConversation := none }
      (by decide) (by decide) (by decide)
      (by intro m hm; exact absurd hm (List.not_mem_nil m))).1

/-- C2: when the error callback fires for a streaming send, both optimistic
messages — identified by their exact placeholder ids — are removed, so the
store's message list is exactly what it was before the send (same length),
contains neither optimistic message, and an error is surfaced to the
caller; nothing else changes. -/
theorem c2_rollback :
    ∀ (now : Int) (text : Str) (s0 : ChatState) (cs : List StreamChunk),
      (trimStr text).isEmpty = false →
      (∀ m ∈ s0.messages, m.id ≠ now ∧ m.id ≠ now + 1) →
      sendStream now text s0 (cs.map CB.chunk ++ [CB.error]) =
        { s0 with errorSurfaced := true } ∧
      (sendStream now text s0 (cs.map CB.chunk ++ [CB.error])).messages.length =
        s0.messages.length ∧
      optimisticUser now text s0 ∉
        (sendStream now text s0 (cs.map CB.chunk ++ [CB.error])).messages ∧
      optimisticAsst now s0 ∉
        (sendStream now text s0 (cs.map CB.chunk ++ [CB.error])).messages := by
  intro now text s0 cs htrim hfresh
  have hmain : sendStream now text s0 (cs.map CB.chunk ++ [CB.error]) =
      { s0 with errorSurfaced := true } := by
    rw [sendStream_nonempty now text s0 _ htrim, applyCBs_append,
      applyCBs_chunks_send now text s0 cs hfresh, applyCBs_singleton, applyCB_error]
    show ({ s0 with
        messages := rollback now (now + 1)
          (s0.messages ++ [optimisticUser now text s0,
            { optimisticAsst now s0 with
                content := (cs.foldl accStep (initAcc s0)).fullContent }]),
        errorSurfaced := true } : ChatState) = _
    rw [rollback_shape now (now + 1) s0.messages _ _ hfresh rfl rfl]
  refine ⟨hmain, by rw [hmain], ?_, ?_⟩
  · rw [hmain]
    intro hmem
    have h := (hfresh _ hmem).1
    exact h rfl
  · rw [hmain]
    intro hmem
    have h := (hfresh _ hmem).2
    exact h rfl

theorem c2_witness :
    sendStream 100 (str "hello")
        { messages := [], currentConversation := none } [CB.error] =
      { messages := [], currentConversation := none, errorSurfaced := true } :=
  (c2_rollback 100 (str "hello") { messages := [], currentConversation := none } []
    (by decide) (by intro m hm; exact absurd hm (List.not_mem_nil m))).1

lemma reconOne_user (uid aid : Int) (A : StreamAcc) (m : ChatMessage)
    (hm : m.id = uid) (hne : uid ≠ aid) :
    reconOne uid aid A m =
      if numT A.finalUserMessageId then
        { m with id := A.finalUserMessageId.getD 0,
                 conversation_id := A.finalConversationId }
      else m := by
  unfold reconOne
  by_cases hn : numT A.finalUserMessageId
  · rw [if_pos ⟨hm, hn⟩, if_pos hn]
  · rw [if_neg fun h => hn h.2, if_neg fun h => hne (hm ▸ h.1), if_neg hn]

lemma reconOne_asst (uid aid : Int) (A : StreamAcc) (m : ChatMessage)
    (hm : m.id = aid) (hne : uid ≠ aid) :
    reconOne uid aid A m =
      if numT A.finalAssistantMessageId then
        { m with id := A.finalAssistantMessageId.getD 0,
                 conversation_id := A.finalConversationId }
      else m := by
  unfold reconOne
  rw [if_neg fun h => hne ((hm ▸ h.1).symm)]
  by_cases hn : numT A.finalAssistantMessageId
  · rw [if_pos ⟨hm, hn⟩, if_pos hn]
  · rw [if_neg fun h => hn h.2, if_neg hn]

/-- C1 counterexample: a stream that completes with conversation id
`"conv-9"` and an assistant id but NO `userMessageId` leaves the user
message's conversation id untouched (`none`), even though the resolved
conversation id `"conv-9"` is adopted as current — so the claim that on
completion "both messages' conversation id is set to the final resolved
conversation id" fails: the user message keeps `none ≠ some "conv-9"`. -/
theorem c1_counterexample :
    sendStream 1000 (str "hi") { messages := [], currentConversation := none }
        [CB.chunk { finished := true, conversation_id := some (str "conv-9"),
                    assistant_message_id := some 102 },
         CB.complete] =
      { messages :=
          [ { id := 1000, role := MessageRole.user, content := str "hi",
              conversation_id := none, created_at := 1000 },
            { id := 102, role := MessageRole.assistant, content := [],
              conversation_id := some (str "conv-9"), created_at := 1000 } ],
        currentConversation := some (str "conv-9"),
        refreshTriggered := true, errorSurfaced := false } ∧
    (none : Option Str) ≠ some (str "conv-9") :=
  ⟨by decide, by decide⟩

/-- C1 (amended): on stream completion, each of the two optimistic
messages is reconciled only when its own server-issued id is truthy: such
a message gets that id and the final resolved conversation id, while a
message whose server id is absent is left entirely untouched (its
conversation id included).  If no conversation was active before the send
and the resolved conversation id is truthy, it is adopted as current and a
conversation-list refresh is triggered.  The §8.7 run — where both server
ids are present — produces exactly the final list
`[{101, user, "2+2?", conv-9}, {102, assistant, "4", conv-9}]` with
current conversation `"conv-9"`. -/
theorem c1_reconcile_amended :
    ∀ (now : Int) (text : Str) (s0 : ChatState) (cs : List StreamChunk) (A : StreamAcc),
      (trimStr text).isEmpty = false →
      (∀ m ∈ s0.messages, m.id ≠ now ∧ m.id ≠ now + 1) →
      A = cs.foldl accStep (initAcc s0) →
      (sendStream now text s0 (cs.map CB.chunk ++ [CB.complete]) =
        { messages := s0.messages ++
            [ (if numT A.finalUserMessageId then
                 { optimisticUser now text s0 with
                     id := A.finalUserMessageId.getD 0,
                     conversation_id := A.finalConversationId }
               else optimisticUser now text s0),
              (if numT A.finalAssistantMessageId then
                 { optimisticAsst now s0 with
                     content := A.fullContent,
                     id := A.finalAssistantMessageId.getD 0,
                     conversation_id := A.finalConversationId }
               else { optimisticAsst now s0 with content := A.fullContent }) ],
          currentConversation :=
            if !strT s0.currentConversation && strT A.finalConversationId then
              A.finalConversationId
            else s0.currentConversation,
          refreshTriggered :=
            s0.refreshTriggered ||
              (!strT s0.currentConversation && strT A.finalConversationId),
          errorSurfaced := s0.errorSurfaced }) ∧
      sendStream 100 (str "2+2?") { messages := [], currentConversation := none }
        [CB.chunk { content := some (str "4") },
         CB.chunk { finished := true, conversation_id := some (str "conv-9"),
                    user_message_id := some 101, assistant_message_id := some 102 },
         CB.complete] =
        { messages :=
            [ { id := 101, role := MessageRole.user, content := str "2+2?",
                conversation_id := some (str "conv-9"), created_at := 100 },
              { id := 102, role := MessageRole.assistant, content := str "4",
                conversation_id := some (str "conv-9"), created_at := 100 } ],
          currentConversation := some (str "conv-9"),
          refreshTriggered := true, errorSurfaced := false } := by
  intro now text s0 cs A htrim hfresh hA
  constructor
  · subst hA
    rw [sendStream_nonempty now text s0 _ htrim, applyCBs_append,
      applyCBs_chunks_send now text s0 cs hfresh, applyCBs_singleton, applyCB_complete]
    have hne : now ≠ now + 1 := by omega
    show ({ s0 with
        messages := reconcile now (now + 1) (cs.foldl accStep (initAcc s0))
          (s0.messages ++ [optimisticUser now text s0,
            { optimisticAsst now s0 with
                content := (cs.foldl accStep (initAcc s0)).fullContent }]),
        currentConversation := _, refreshTriggered := _ } : ChatState) = _
    rw [reconcile_shape now (now + 1) _ s0.messages _ _ hfresh,
      reconOne_user now (now + 1) _ _ rfl hne,
      reconOne_asst now (now + 1) _ _ rfl hne]
  · decide

theorem c1_witness :
    sendStream 100 (str "2+2?") { messages := [], currentConversation := none }
        [CB.chunk { content := some (str "4") },
         CB.chunk { finished := true, conversation_id := some (str "conv-9"),
                    user_message_id := some 101, assistant_message_id := some 102 },
         CB.complete] =
      { messages :=
          [ { id := 101, role := MessageRole.user, content := str "2+2?",
              conversation_id := some (str "conv-9"), created_at := 100 },
            { id := 102, role := MessageRole.assistant, content := str "4",
              conversation_id := some (str "conv-9"), created_at := 100 } ],
        currentConversation := some (str "conv-9"),
        refreshTriggered := true, errorSurfaced := false } :=
  (c1_reconcile_amended 100 (str "2+2?") { messages := [], currentConversation := none }
      [ { content := some (str "4") },
        { finished := true, conversation_id := some (str "conv-9"),
          user_message_id := some 101, assistant_message_id := some 102 } ]
      { fullContent := str "4", finalConversationId := some (str "conv-9"),
        finalUserMessageId := some 101, finalAssistantMessageId := some 102 }
      (by decide) (by intro m hm; exact absurd hm (List.not_mem_nil m)) (by decide)).2

/-- C8: over any sequence of parsed chunks, the accumulated assistant
content is the prior content followed by the concatenation, in arrival
order, of the chunks' content fields (appended, never replaced); each
metadata field equals the value of the latest chunk in which it was
present (truthy), with absent fields leaving the prior value untouched.
The §8.3 sequence reduces to content `"AB"`, conversation id `"c1"`, ids
`1`/`2`, and its line-level processing fires `onComplete` exactly once,
after the third chunk. -/
theorem c8_stream_reduction :
    (∀ (cs : List StreamChunk) (a : StreamAcc),
        (cs.foldl accStep a).fullContent =
          a.fullContent ++ (cs.map fun c => c.content.getD []).flatten ∧
        (cs.foldl accStep a).finalConversationId =
          lastPresent strT a.finalConversationId (cs.map fun c => c.conversation_id) ∧
        (cs.foldl accStep a).finalUserMessageId =
          lastPresent numT a.finalUserMessageId (cs.map fun c => c.user_message_id) ∧
        (cs.foldl accStep a).finalAssistantMessageId =
          lastPresent numT a.finalAssistantMessageId
            (cs.map fun c => c.assistant_message_id)) ∧
    ([ { content := some (str "A") },
       { content := some (str "B"), conversation_id := some (str "c1") },
       { finished := true, user_message_id := some 1, assistant_message_id := some 2 } ] :
        List StreamChunk).foldl accStep
      { fullContent := [], finalConversationId := none, finalUserMessageId := none,
        finalAssistantMessageId := none } =
      { fullContent := str "AB", finalConversationId := some (str "c1"),
        finalUserMessageId := some 1, finalAssistantMessageId := some 2 } ∧
    processLines Jdemo
      [ str "data: \x7b\"content\":\"A\"\x7d",
        str "data: \x7b\"content\":\"B\",\"conversation_id\":\"c1\"\x7d",
        str "data: \x7b\"finished\":true,\"user_message_id\":1,\"assistant_message_id\":2\x7d" ] =
      ( [ CB.chunk { content := some (str "A") },
          CB.chunk { content := some (str "B"), conversation_id := some (str "c1") },
          CB.chunk { finished := true, user_message_id := some 1,
                     assistant_message_id := some 2 },
          CB.complete ], true) :=
  ⟨fun cs a => ⟨foldl_accStep_content cs a, foldl_accStep_meta cs a⟩, by decide, by decide⟩

/-- C3 counterexample: polling a batch whose ids arrive out of ascending
order — `["b", "a"]` with no watermark set — dispatches both events but
sets the watermark to `"a"`, the id of the LAST event of the batch, while
the maximum id seen in the batch is `"b"`; the claim that the watermark
equals the batch maximum is false. -/
theorem c3_counterexample :
    pollStep none
        [ { event_id := str "b" }, { event_id := str "a" } ] =
      ([ { event_id := str "b" }, { event_id := str "a" } ], some (str "a")) ∧
    maxEventId [ { event_id := str "b" }, { event_id := str "a" } ] = str "b" ∧
    (pollStep none [ { event_id := str "b" }, { event_id := str "a" } ]).2 ≠
      some (maxEventId [ { event_id := str "b" }, { event_id := str "a" } ]) :=
  ⟨by decide, by decide, by decide⟩

/-- C3 (amended): in each polling iteration an event is dispatched exactly
when there is no truthy watermark yet or its id is strictly greater
(string comparison) than the watermark; after a non-empty batch the
watermark becomes the id of the LAST event of the batch (which is the
maximum only if the batch is ascending), and an empty batch leaves the
watermark unchanged. -/
theorem c3_polling_amended :
    ∀ (lastEventId : Option Str) (events : List NotificationEvent),
      (∀ e, e ∈ (pollStep lastEventId events).1 ↔
        e ∈ events ∧
          (strT lastEventId = false ∨ strLt (lastEventId.getD []) e.event_id = true)) ∧
      (∀ h : events ≠ [],
        (pollStep lastEventId events).2 = some (events.getLast h).event_id) ∧
      (events = [] → (pollStep lastEventId events).2 = lastEventId) := by
  intro lastEventId events
  refine ⟨?_, ?_, ?_⟩
  · intro e
    show e ∈ events.filter _ ↔ _
    rw [List.mem_filter]
    constructor
    · rintro ⟨hmem, hp⟩
      refine ⟨hmem, ?_⟩
      by_cases hl : strT lastEventId
      · rw [if_pos hl] at hp
        exact Or.inr hp
      · exact Or.inl (Bool.of_not_eq_true hl)
    · rintro ⟨hmem, hp | hp⟩
      · refine ⟨hmem, ?_⟩
        rw [if_neg (by rw [hp]; exact Bool.false_ne_true)]
      · refine ⟨hmem, ?_⟩
        by_cases hl : strT lastEventId
        · rw [if_pos hl]
          exact hp
        · rw [if_neg hl]
  · intro h
    show (match events.getLast? with
      | none => lastEventId
      | some e => some e.event_id) = _
    rw [List.getLast?_eq_getLast events h]
  · intro h
    subst h
    rfl

theorem c3_witness :
    ({ event_id := str "b" } : NotificationEvent) ∈
      (pollStep none [ { event_id := str "b" }, { event_id := str "a" } ]).1 ∧
    (pollStep none [ { event_id := str "b" }, { event_id := str "a" } ]).2 =
      some (str "a") :=
  ⟨((c3_polling_amended none
        [ { event_id := str "b" }, { event_id := str "a" } ]).1 _).mpr
      ⟨by decide, Or.inl (by decide)⟩,
   by
    have h := (c3_polling_amended none
      [ { event_id := str "b" }, { event_id := str "a" } ]).2.1 (by decide)
    rw [h]
    decide⟩

/-- C9: the consumer notification buffer never retains two events with the
same event id and never exceeds 100 entries; dispatching a sequence of
events with pairwise-distinct ids retains exactly the most recent 100 by
arrival order (oldest evicted first), and dispatching an event whose id is
already present leaves the buffer unchanged. -/
theorem c9_notification_buffer :
    (∀ es : List NotificationEvent,
        ((es.map fun n => n.event_id).Nodup →
          handleEvents [] es = es.drop (es.length - 100)) ∧
        (handleEvents [] es).length ≤ 100 ∧
        ((handleEvents [] es).map fun n => n.event_id).Nodup) ∧
    (∀ (buf : List NotificationEvent) (e : NotificationEvent),
        (buf.any fun n => n.event_id = e.event_id) = true →
          handleEvent buf e = buf) := by
  constructor
  · intro es
    refine ⟨?_, ?_, ?_⟩
    · intro hnd
      have h := handleEvents_distinct es [] (by simp) (by rwa [List.nil_append])
      rwa [List.nil_append] at h
    · exact handleEvents_length_le es [] (by simp)
    · exact handleEvents_nodup es [] (by simp)
  · exact handleEvent_dup

theorem c9_witness :
    handleEvents []
        ((List.range 105).map fun i =>
          ({ event_id := List.replicate i 'a' } : NotificationEvent)) =
      ((List.range 105).map fun i =>
          ({ event_id := List.replicate i 'a' } : NotificationEvent)).drop 5 := by
  have hnd : (((List.range 105).map fun i =>
      ({ event_id := List.replicate i 'a' } : NotificationEvent)).map
        fun n => n.event_id).Nodup := by
    rw [List.map_map]
    refine List.Nodup.map ?_ (List.nodup_range 105)
    intro i j hij
    have h := congrArg List.length hij
    simpa using h
  have h := ((c9_notification_buffer.1 ((List.range 105).map fun i =>
      ({ event_id := List.replicate i 'a' } : NotificationEvent))).1) hnd
  rwa [show (((List.range 105).map fun i =>
      ({ event_id := List.replicate i 'a' } : NotificationEvent)).length - 100) = 5 by simp] at h

end Wonders
